import Mathlib

/-!
Shallow embedding of `exp/regression_training.py` from the MiM-StocR
repository: model factory, loss routing, train/eval loops, checkpoint
selection with early stopping, the repetition loop with a global best
score, the idempotent skip gate of `main`, and config-file overrides.

Tensors are modelled over `ℚ`; the external autodiff/metric machinery
(model forward passes, loss gradients, optimizer updates, `metric_fn`)
is abstracted by an `Ext` record of function parameters, exactly the
parts the repository imports from `models.model` and `utils.utils`.
-/

set_option maxHeartbeats 1000000

namespace StocR

/-- Flattened parameter vector: models `model.state_dict()` contents. -/
abbrev Params := List ℚ

/-- Opaque optimizer internal state (Adam moment buffers etc.). -/
abbrev OptS := List ℚ

/-- Abstract random-number-generator state (torch global RNG). -/
structure RNG where
  seed : ℕ
deriving DecidableEq, Repr

/-- A torch module: trainable parameters plus the train/eval mode flag
that `model.train()` / `model.eval()` toggle. -/
structure Model where
  params : Params
  training : Bool
deriving DecidableEq, Repr

/-- One batch from the data loader: what `loader.get(slc)` yields
(`feature, _, label, market_value, stock_index, index, mask`).
A `none` label entry models a NaN label. -/
structure Batch where
  feature : List (List ℚ)
  label : List (Option ℚ)
  market_value : List ℚ
  stock_index : List ℕ
  index : List ℕ
deriving DecidableEq, Repr

/-- Result bundle of the external `metric_fn`:
`precision, recall, ic, rank_ic, ndcg`; the list-valued fields are
keyed by position over k in [1, 3, 5, 10, 20, 30, 50, 100]. -/
structure Metrics where
  precisionK : List ℚ
  recallK : List ℚ
  ic : ℚ
  rank_ic : ℚ
  ndcg : List ℚ
deriving DecidableEq, Repr

/-- The model classes imported from `models.model`. -/
inductive ModelClass where
  | MLP
  | LSTM
  | GRU
  | GAT
  | HIST
  | RSR
deriving DecidableEq, Repr, Fintype

/-- Error raised by `get_model` for an unrecognized token; it carries the
offending token, as the `ValueError` message string does. -/
inductive ModelError where
  | unknownModel (name : String)
deriving DecidableEq, Repr

/-- ASCII upper-casing of one character, the effect of Python's
`str.upper` on the ASCII model-name tokens this file compares. -/
def charUpper (c : Char) : Char :=
  if c.isLower then Char.ofNat (c.toNat - 32) else c

/-- `model_name.upper()` (ASCII). -/
def strUpper (s : String) : String := ⟨s.data.map charUpper⟩

/-- The canonical upper-case token of each model class, as matched by
`get_model` (`GATS` maps to the `GAT` class). -/
def modelToken : ModelClass → String
  | .MLP => "MLP"
  | .LSTM => "LSTM"
  | .GRU => "GRU"
  | .GAT => "GATS"
  | .HIST => "HIST"
  | .RSR => "RSR"

/-- `get_model` from `regression_training.py`: case-insensitive chain of
comparisons of `model_name.upper()`, raising on an unknown token. -/
def get_model (model_name : String) : Except ModelError ModelClass :=
  if strUpper model_name = "MLP" then .ok .MLP
  else if strUpper model_name = "LSTM" then .ok .LSTM
  else if strUpper model_name = "GRU" then .ok .GRU
  else if strUpper model_name = "GATS" then .ok .GAT
  else if strUpper model_name = "HIST" then .ok .HIST
  else if strUpper model_name = "RSR" then .ok .RSR
  else .error (.unknownModel model_name)

/-- Which loss implementation a loop ends up calling. -/
inductive LossKind where
  | ic
  | pair_wise
  | ndcg
  | appndcg
  | mse
deriving DecidableEq, Repr

/-- Loss selection in `train_epoch`: the if/elif chain on
`args.loss_type` with values `ic`, `pair_wise`, `ndcg`, `appndcg`,
falling through to the masked-mse `loss_fn`. -/
def trainLossKind (loss_type : String) : LossKind :=
  if loss_type = "ic" then .ic
  else if loss_type = "pair_wise" then .pair_wise
  else if loss_type = "ndcg" then .ndcg
  else if loss_type = "appndcg" then .appndcg
  else .mse

/-- Loss selection in `test_epoch`: only `pair_wise` and `appndcg` are
recognized; every other `loss_type` falls through to `loss_fn`. -/
def testLossKind (loss_type : String) : LossKind :=
  if loss_type = "pair_wise" then .pair_wise
  else if loss_type = "appndcg" then .appndcg
  else .mse

/-- Auxiliary-matrix type (`stock2concept` / `stock2stock` arrays). -/
abbrev Mat := List (List ℚ)

/-- Row `i` of a matrix, `m[i]`. -/
def matRow (m : Mat) (i : ℕ) : List ℚ := m.getD i []

/-- `m[stock_index]`: row selection by the batch's stock indices. -/
def selectRows (m : Mat) (ix : List ℕ) : Mat := ix.map (matRow m)

/-- `m[stock_index][:, stock_index]`: the sub-matrix on the batch's
stock indices. -/
def selectSub (m : Mat) (ix : List ℕ) : Mat :=
  ix.map (fun i => ix.map (fun j => (matRow m i).getD j 0))

/-- The three call signatures the loops use: HIST takes the selected
concept rows and market value, RSR takes the relation sub-matrix, every
other model takes only the feature tensor. -/
inductive CallInput where
  | featuresOnly (feature : List (List ℚ))
  | histCall (feature : List (List ℚ)) (s2c : Mat) (mv : List ℚ)
  | rsrCall (feature : List (List ℚ)) (s2s : Mat)
deriving DecidableEq, Repr

/-- The variant routing shared by `train_epoch`, `test_epoch` and
`inference`: an exact string comparison of `args.model_name` against
`HIST` and then `RSR`, falling through to the features-only call. -/
def routeCall (model_name : String) (b : Batch) (s2c s2s : Mat) : CallInput :=
  if model_name = "HIST" then
    .histCall b.feature (selectRows s2c b.stock_index) b.market_value
  else if model_name = "RSR" then
    .rsrCall b.feature (selectSub s2s b.stock_index)
  else
    .featuresOnly b.feature

/-- The model-construction branching in `main`: exact comparison of
`args.model_name`; the generic branch passes `d_feat` and
`num_layers`, the RSR branch passes `num_relation`. -/
inductive CtorCall where
  | histCtor
  | rsrCtor (num_relation : ℕ)
  | genericCtor (d_feat num_layers : ℕ)
deriving DecidableEq, Repr

/-- `main`'s model construction: `if args.model_name == 'HIST' ...
elif args.model_name == 'RSR' ... else` generic call. -/
def ctorCall (model_name : String) (d_feat num_layers num_relation : ℕ) : CtorCall :=
  if model_name = "HIST" then .histCtor
  else if model_name = "RSR" then .rsrCtor num_relation
  else .genericCtor d_feat num_layers

/-- The slice of the parsed argument namespace the embedded code reads. -/
structure Args where
  model_name : String
  loss_type : String
  n_epochs : ℕ
  early_stop : ℕ
  repeatN : ℕ
  overwrite : Bool
deriving DecidableEq, Repr

/-- External collaborators of `regression_training.py`: the model forward
passes (`models.model`), the loss/metric implementations (`utils.utils`),
autodiff (`loss.backward()`), the Adam step and model construction.
They are parameters of the embedding; everything else is translated from
the source. `fwdTrain` is the train-mode forward (dropout may consume
RNG), `fwdEval` the eval-mode forward (deterministic). -/
structure Ext where
  fwdEval : Params → CallInput → List ℚ
  fwdTrain : Params → CallInput → RNG → List ℚ × RNG
  mse : List ℚ → List ℚ → ℚ
  loss_ic : List ℚ → List (Option ℚ) → ℚ
  pair_wise_loss : List ℚ → List (Option ℚ) → ℚ
  NDCG_loss : List ℚ → List (Option ℚ) → ℚ
  ApproxNDCG_loss : List ℚ → List (Option ℚ) → ℚ
  backward : LossKind → Params → CallInput → List (Option ℚ) → List ℚ
  optStep : OptS → Params → List ℚ → OptS × Params
  metric : List (ℕ × ℚ × Option ℚ) → Metrics
  mkModel : RNG → Model × OptS × RNG

/-- The mask/value pairs of `loss_fn`: rows whose label is not NaN. -/
def maskedPairs (pred : List ℚ) (label : List (Option ℚ)) : List (ℚ × ℚ) :=
  (pred.zip label).filterMap (fun pl => pl.2.map (fun l => (pl.1, l)))

/-- `loss_fn(pred, label)`: mask out NaN labels, then call `mse` on the
masked prediction and label vectors. -/
def loss_fn (E : Ext) (pred : List ℚ) (label : List (Option ℚ)) : ℚ :=
  E.mse ((maskedPairs pred label).map Prod.fst) ((maskedPairs pred label).map Prod.snd)

/-- Dispatch a selected loss kind to its implementation. -/
def applyLoss (E : Ext) : LossKind → List ℚ → List (Option ℚ) → ℚ
  | .ic => E.loss_ic
  | .pair_wise => E.pair_wise_loss
  | .ndcg => E.NDCG_loss
  | .appndcg => E.ApproxNDCG_loss
  | .mse => loss_fn E

/-- `model(...)` with variant routing: in training mode the forward may
consume RNG (dropout); in eval mode it is a pure function of the
parameters and the routed inputs. -/
def forward (E : Ext) (model_name : String) (m : Model) (b : Batch)
    (s2c s2s : Mat) (rng : RNG) : List ℚ × RNG :=
  if m.training then E.fwdTrain m.params (routeCall model_name b s2c s2s) rng
  else (E.fwdEval m.params (routeCall model_name b s2c s2s), rng)

/-- `pd.DataFrame({score, label}, index=index)` rows of one batch. -/
def zipRows (ix : List ℕ) (pred : List ℚ) (label : List (Option ℚ)) :
    List (ℕ × ℚ × Option ℚ) :=
  ix.zip (pred.zip label)

/-- `np.mean` of a list of rationals (0 on the empty list). -/
def listMean (xs : List ℚ) : ℚ := xs.sum / xs.length

/-- `torch.nn.utils.clip_grad_value_(params, c)`: clamp every gradient
element into [-c, c]. -/
def clip_grad_value (c : ℚ) (grads : List ℚ) : List ℚ :=
  grads.map (fun g => max (-c) (min c g))

/-- One batch step of `train_epoch`: forward (train mode), loss selection
by `args.loss_type`, backward, clip gradients at 3.0, optimizer step.
Returns the updated model, optimizer state, RNG, and the clipped gradient
vector that was handed to `optimizer.step()`. -/
def train_step (E : Ext) (args : Args) (s2c s2s : Mat) (m : Model) (o : OptS)
    (b : Batch) (rng : RNG) : Model × OptS × RNG × List ℚ :=
  let fw := forward E args.model_name m b s2c s2s rng
  let lk := trainLossKind args.loss_type
  let grads := E.backward lk m.params (routeCall args.model_name b s2c s2s) b.label
  let clipped := clip_grad_value 3 grads
  let op := E.optStep o m.params clipped
  ({ m with params := op.2 }, op.1, fw.2, clipped)

/-- The batch loop of `train_epoch`, also logging each gradient vector
passed to the optimizer step. -/
def trainLoop (E : Ext) (args : Args) (s2c s2s : Mat) :
    List Batch → Model → OptS → RNG → Model × OptS × RNG × List (List ℚ)
  | [], m, o, rng => (m, o, rng, [])
  | b :: bs, m, o, rng =>
    let st := train_step E args s2c s2s m o b rng
    let rest := trainLoop E args s2c s2s bs st.1 st.2.1 st.2.2.1
    (rest.1, rest.2.1, rest.2.2.1, st.2.2.2 :: rest.2.2.2)

/-- Result of `train_epoch`: mutated model/optimizer/RNG plus the log of
clipped gradient vectors (one per batch, in order). -/
structure TrainResult where
  model : Model
  opt : OptS
  rng : RNG
  gradLog : List (List ℚ)

/-- `train_epoch`: `model.train()` then one optimization pass over all
training batches in loader order. -/
def train_epoch (E : Ext) (args : Args) (s2c s2s : Mat) (m : Model) (o : OptS)
    (batches : List Batch) (rng : RNG) : TrainResult :=
  let m1 : Model := { m with training := true }
  let r := trainLoop E args s2c s2s batches m1 o rng
  ⟨r.1, r.2.1, r.2.2.1, r.2.2.2⟩

/-- The daily batch loop of `test_epoch` under `torch.no_grad()`:
losses, concatenated (index, score, label) rows, final RNG. -/
def testLoop (E : Ext) (args : Args) (lk : LossKind) (m : Model) (s2c s2s : Mat) :
    List Batch → RNG → List ℚ × List (ℕ × ℚ × Option ℚ) × RNG
  | [], rng => ([], [], rng)
  | b :: bs, rng =>
    let fw := forward E args.model_name m b s2c s2s rng
    let loss := applyLoss E lk fw.1 b.label
    let rest := testLoop E args lk m s2c s2s bs fw.2
    (loss :: rest.1, zipRows b.index fw.1 b.label ++ rest.2.1, rest.2.2)

/-- What `test_epoch` returns (plus the model object it mutated via
`model.eval()` and the RNG it threads): mean loss, `scores` (which the
source sets to `rank_ic`), and the `metric_fn` outputs. -/
structure TestResult where
  model : Model
  rng : RNG
  meanLoss : ℚ
  scores : ℚ
  precisionK : List ℚ
  recallK : List ℚ
  ic : ℚ
  rank_ic : ℚ
  ndcg : List ℚ
deriving DecidableEq, Repr

/-- `test_epoch`: `model.eval()`, a forward-only pass over the daily
batches, `metric_fn` on the concatenated predictions; loss routing via
`testLossKind`; `scores = rank_ic`. -/
def test_epoch (E : Ext) (args : Args) (m : Model) (batches : List Batch)
    (s2c s2s : Mat) (rng : RNG) : TestResult :=
  let m1 : Model := { m with training := false }
  let r := testLoop E args (testLossKind args.loss_type) m1 s2c s2s batches rng
  let mets := E.metric r.2.1
  ⟨m1, r.2.2, listMean r.1, mets.rank_ic, mets.precisionK, mets.recallK,
    mets.ic, mets.rank_ic, mets.ndcg⟩

/-- The daily batch loop of `inference` (predictions only). -/
def predsLoop (E : Ext) (args : Args) (m : Model) (s2c s2s : Mat) :
    List Batch → RNG → List (ℕ × ℚ × Option ℚ) × RNG
  | [], rng => ([], rng)
  | b :: bs, rng =>
    let fw := forward E args.model_name m b s2c s2s rng
    let rest := predsLoop E args m s2c s2s bs fw.2
    (zipRows b.index fw.1 b.label ++ rest.1, rest.2)

/-- `inference`: `model.eval()` then a forward-only pass collecting
(score, label) rows. -/
def inference (E : Ext) (args : Args) (m : Model) (batches : List Batch)
    (s2c s2s : Mat) (rng : RNG) : Model × List (ℕ × ℚ × Option ℚ) × RNG :=
  let m1 : Model := { m with training := false }
  let r := predsLoop E args m1 s2c s2s batches rng
  (m1, r.1, r.2)

/-- Checkpoint-selector state of one repetition: `best_score` (`none`
models the `-np.inf` start), `best_epoch`, `stop_round`, `best_param`. -/
structure Sel where
  best_score : Option ℚ
  best_epoch : ℕ
  stop_round : ℕ
  best_param : Params
deriving DecidableEq, Repr

/-- Initial selector state: `-inf`, epoch 0, `stop_round 0`, and a deep
copy of the freshly constructed model's parameters. -/
def initSel (p : Params) : Sel := ⟨none, 0, 0, p⟩

/-- `val_score > best_score` where `best_score` may still be `-inf`. -/
def scGt (x : ℚ) : Option ℚ → Bool
  | none => true
  | some y => decide (y < x)

/-- Result of the per-repetition epoch loop: the carried train/eval
state, the selector state, the next epoch index (= number of epochs
executed when starting at 0), and whether the `early stop` break fired. -/
structure LoopOut (S : Type) where
  state : S
  sel : Sel
  nextEpoch : ℕ
  earlyStopped : Bool

/-- The epoch loop of `main` (lines 257-294), parameterized by the
train-and-evaluate epoch body `te`, which from the epoch index and the
carried state returns the new state, the parameter snapshot taken right
after `train_epoch` (`params_ckpt`), and the validation score.  On a
strictly improving score the selector is overwritten and `stop_round`
reset; otherwise `stop_round` is incremented and the loop breaks once it
reaches `early_stop`. -/
def runLoop {S : Type} (te : ℕ → S → S × Params × ℚ) (es : ℕ) :
    ℕ → ℕ → S → Sel → LoopOut S
  | 0, e, s, sel => ⟨s, sel, e, false⟩
  | r + 1, e, s, sel =>
    let t := te e s
    if scGt t.2.2 sel.best_score then
      runLoop te es r (e + 1) t.1 ⟨some t.2.2, e, 0, t.2.1⟩
    else if es ≤ sel.stop_round + 1 then
      ⟨t.1, ⟨sel.best_score, sel.best_epoch, sel.stop_round + 1, sel.best_param⟩, e + 1, true⟩
    else
      runLoop te es r (e + 1) t.1
        ⟨sel.best_score, sel.best_epoch, sel.stop_round + 1, sel.best_param⟩

/-- `best_score > global_best_score` with both sides possibly `-inf`. -/
def optGtOpt (a b : Option ℚ) : Bool :=
  match a, b with
  | none, _ => false
  | some _, none => true
  | some x, some y => decide (y < x)

/-- Order on scores with `none` as `-inf` (used to state monotonicity of
the global best). -/
def scLE (a b : Option ℚ) : Bool :=
  match a, b with
  | none, _ => true
  | some _, none => false
  | some x, some y => decide (x ≤ y)

/-- The cross-repetition global-best update (lines 299-301): the pair is
(global_best_score, persisted `model_best.bin` contents); both are
replaced exactly when the repetition's `best_score` is strictly
greater. -/
def repUpdate (g : Option ℚ × Option Params) (best_score : Option ℚ)
    (best_param : Params) : Option ℚ × Option Params :=
  if optGtOpt best_score g.1 then (best_score, some best_param) else g

/-- Folding `repUpdate` over the (best_score, best_param) outcomes of
successive repetitions. -/
def repFold (l : List (Option ℚ × Params)) (g : Option ℚ × Option Params) :
    Option ℚ × Option Params :=
  l.foldl (fun acc bp => repUpdate acc bp.1 bp.2) g

/-- Contents of `info.json` as far as the embedding tracks them:
`best_epoch` and the `res` scalar dictionary (named IC / RankIC /
NDCG@100 entries per split); the dumped `config` is the same `Args`
record every time and is omitted. -/
structure Info where
  best_epoch : ℕ
  best_score : List (String × ℚ)
deriving DecidableEq, Repr

/-- The files of the output directory that `main` reads or writes. -/
structure World where
  info_json : Option Info
  model_bin : Option Params
  model_best_bin : Option Params
deriving DecidableEq, Repr

/-- Observable work of one `main` invocation: whether data loaders were
built and how many epochs of training ran in total. -/
structure Effects where
  loaders_created : Bool
  train_epochs_run : ℕ
deriving DecidableEq, Repr

/-- The `res` dictionary written per repetition: IC, Rank IC and
NDCG@100 (index 7 of the k-list [1,3,5,10,20,30,50,100]) per split. -/
def resEntries (E : Ext) (rows1 rows2 rows3 : List (ℕ × ℚ × Option ℚ)) :
    List (String × ℚ) :=
  [("train-IC", (E.metric rows1).ic), ("train-RankIC", (E.metric rows1).rank_ic),
   ("train-NDCG@100", (E.metric rows1).ndcg.getD 7 0),
   ("valid-IC", (E.metric rows2).ic), ("valid-RankIC", (E.metric rows2).rank_ic),
   ("valid-NDCG@100", (E.metric rows2).ndcg.getD 7 0),
   ("test-IC", (E.metric rows3).ic), ("test-RankIC", (E.metric rows3).rank_ic),
   ("test-NDCG@100", (E.metric rows3).ndcg.getD 7 0)]

/-- One epoch body of `main`: `train_epoch`, then the `params_ckpt`
snapshot, then `test_epoch` on the train, valid and test loaders; the
validation score is `val_score = t2.scores`.  The carried state is
(model, optimizer, RNG). -/
def epochBody (E : Ext) (args : Args) (tb vb teb : List Batch) (s2c s2s : Mat)
    (_e : ℕ) (st : Model × OptS × RNG) : (Model × OptS × RNG) × Params × ℚ :=
  let tr := train_epoch E args s2c s2s st.1 st.2.1 tb st.2.2
  let params_ckpt := tr.model.params
  let t1 := test_epoch E args tr.model tb s2c s2s tr.rng
  let t2 := test_epoch E args t1.model vb s2c s2s t1.rng
  let t3 := test_epoch E args t2.model teb s2c s2s t2.rng
  ((t3.model, tr.opt, t3.rng), params_ckpt, t2.scores)

/-- One repetition of `main`'s `for times in range(args.repeat)` loop:
build a model, run the epoch loop, reload the best parameters, save
`model.bin`, update the global best (`model_best.bin`), run `inference`
on the three splits and write `info.json`.  Returns the carried RNG, the
new global best score, the new world, and the number of epochs run. -/
def repetition (E : Ext) (args : Args) (tb vb teb : List Batch) (s2c s2s : Mat)
    (rng : RNG) (gb : Option ℚ) (w : World) : RNG × Option ℚ × World × ℕ :=
  let mk := E.mkModel rng
  let out := runLoop (epochBody E args tb vb teb s2c s2s) args.early_stop
    args.n_epochs 0 (mk.1, mk.2.1, mk.2.2) (initSel mk.1.params)
  let m2 : Model := { out.state.1 with params := out.sel.best_param }
  let w1 : World := { w with model_bin := some out.sel.best_param }
  let gw := repUpdate (gb, w1.model_best_bin) out.sel.best_score out.sel.best_param
  let w2 : World := { w1 with model_best_bin := gw.2 }
  let i1 := inference E args m2 tb s2c s2s out.state.2.2
  let i2 := inference E args i1.1 vb s2c s2s i1.2.2
  let i3 := inference E args i2.1 teb s2c s2s i2.2.2
  let info : Info := ⟨out.sel.best_epoch, resEntries E i1.2.1 i2.2.1 i3.2.1⟩
  let w3 : World := { w2 with info_json := some info }
  (i3.2.2, gw.1, w3, out.nextEpoch)

/-- The repetition loop, threading the RNG, the global best score, the
world, and the accumulated count of trained epochs. -/
def repsLoop (E : Ext) (args : Args) (tb vb teb : List Batch) (s2c s2s : Mat) :
    ℕ → RNG → Option ℚ → World → ℕ → RNG × Option ℚ × World × ℕ
  | 0, rng, gb, w, acc => (rng, gb, w, acc)
  | k + 1, rng, gb, w, acc =>
    let r := repetition E args tb vb teb s2c s2s rng gb w
    repsLoop E args tb vb teb s2c s2s k r.1 r.2.1 r.2.2.1 (acc + r.2.2.2)

/-- `main` (lines 207-354 as far as the embedding tracks state): if
`info.json` already exists and overwrite was not requested, log and
return before creating loaders or training; otherwise create loaders and
run the repetitions starting from a `-inf` global best. -/
def mainRun (E : Ext) (args : Args) (tb vb teb : List Batch) (s2c s2s : Mat)
    (rng0 : RNG) (w : World) : World × Effects :=
  if !args.overwrite && w.info_json.isSome then (w, ⟨false, 0⟩)
  else
    let r := repsLoop E args tb vb teb s2c s2s args.repeatN rng0 none w 0
    (r.2.2.1, ⟨true, r.2.2.2⟩)

/-- `setattr(namespace, key, value)` on a namespace modelled as a
lookup function. -/
def setattr {V : Type} (ns : String → Option V) (k : String) (v : V) :
    String → Option V :=
  fun q => if q = k then some v else ns q

/-- The override loop of `ParseConfigFile.__call__`: apply every
key/value pair of the JSON object, in order, onto the namespace. -/
def parseConfigApply {V : Type} (ns : String → Option V)
    (config : List (String × V)) : String → Option V :=
  config.foldl (fun acc kv => setattr acc kv.1 kv.2) ns

/-- `ParseConfigFile.__call__` with the missing-file check: raise
`ValueError` when the path does not exist, else apply the overrides. -/
def ParseConfigFile {V : Type} (fileExists : Bool) (ns : String → Option V)
    (config : List (String × V)) : Except String (String → Option V) :=
  if fileExists then .ok (parseConfigApply ns config)
  else .error "cannot find config"

/-- The last JSON entry for a key wins: later pairs override earlier
ones, and any match overrides the namespace. -/
def lookupLast {V : Type} : List (String × V) → String → Option V
  | [], _ => none
  | kv :: rest, k => (lookupLast rest k).or (if kv.1 = k then some kv.2 else none)

/-- A trivial concrete instantiation of the external collaborators, used
to evaluate the embedding on concrete inputs. -/
def extTriv : Ext where
  fwdEval := fun _ _ => []
  fwdTrain := fun _ _ rng => ([], rng)
  mse := fun _ _ => 0
  loss_ic := fun _ _ => 0
  pair_wise_loss := fun _ _ => 0
  NDCG_loss := fun _ _ => 0
  ApproxNDCG_loss := fun _ _ => 0
  backward := fun _ _ _ _ => []
  optStep := fun o p _ => (o, p)
  metric := fun _ => ⟨[], [], 0, 0, []⟩
  mkModel := fun rng => (⟨[], true⟩, [], rng)

/-- Externals whose backward pass produces gradients outside [-3, 3]. -/
def extGrad : Ext := { extTriv with backward := fun _ _ _ _ => [5, -7] }

/-- A concrete argument record (`overwrite` not requested). -/
def argsTriv : Args := ⟨"MLP", "", 5, 2, 1, false⟩

/-- A one-row concrete batch. -/
def batch0 : Batch := ⟨[[1]], [some 1], [1], [0], [0]⟩

/-- A strictly decreasing validation-score sequence. -/
def decSeq : ℕ → ℚ := fun e => -(e : ℚ)

/-- A concrete epoch body whose validation scores strictly decrease and
whose parameter snapshot at epoch `e` is `[e]`. -/
def teDec : ℕ → Unit → Unit × Params × ℚ := fun e _ => ((), [(e : ℚ)], decSeq e)

/-- An output directory that already contains `info.json`. -/
def worldInfo : World := ⟨some ⟨0, []⟩, none, none⟩

/-- C4: `get_model` maps every token whose upper-cased form is one of
MLP, LSTM, GRU, GATS, HIST, RSR to the corresponding model class, and
raises an unknown-model error naming the token for every other token. -/
theorem get_model_cases (s : String) :
    (∀ c : ModelClass, strUpper s = modelToken c → get_model s = .ok c) ∧
    ((∀ c : ModelClass, strUpper s ≠ modelToken c) →
      get_model s = .error (.unknownModel s)) := by
  constructor
  · intro c h
    cases c <;> simp only [modelToken] at h <;> unfold get_model <;> rw [h] <;> rfl
  · intro h
    have hM := h .MLP; have hL := h .LSTM; have hG := h .GRU
    have hA := h .GAT; have hH := h .HIST; have hR := h .RSR
    simp only [modelToken] at hM hL hG hA hH hR
    unfold get_model
    rw [if_neg hM, if_neg hL, if_neg hG, if_neg hA, if_neg hH, if_neg hR]

/-- Witness for C4 at the concrete tokens `lstm` and `foo`. -/
theorem get_model_cases_witness :
    get_model ("lstm") = .ok .LSTM ∧
    get_model ("foo") = .error (.unknownModel ("foo")) :=
  ⟨(get_model_cases ("lstm")).1 .LSTM (by decide),
   (get_model_cases ("foo")).2 (by decide)⟩

/-- C10: `test_epoch` recognizes only `pair_wise` and `appndcg` and
falls through to the masked-mse `loss_fn` for every other loss type; in
particular for `ic` and `ndcg` the evaluation loss kind is mse while the
training loss kind is `loss_ic` / `NDCG_loss`, so they differ. -/
theorem eval_loss_routing_mismatch :
    (∀ lt : String, lt ≠ "pair_wise" → lt ≠ "appndcg" → testLossKind lt = .mse) ∧
    testLossKind ("ic") = .mse ∧ testLossKind ("ndcg") = .mse ∧
    trainLossKind ("ic") = .ic ∧ trainLossKind ("ndcg") = .ndcg ∧
    testLossKind ("ic") ≠ trainLossKind ("ic") ∧
    testLossKind ("ndcg") ≠ trainLossKind ("ndcg") := by
  refine ⟨?_, by decide, by decide, by decide, by decide, by decide, by decide⟩
  intro lt h1 h2
  unfold testLossKind
  rw [if_neg h1, if_neg h2]

/-- Witness for C10 at the concrete loss type `ic`. -/
theorem eval_loss_routing_mismatch_witness : testLossKind ("ic") = .mse :=
  eval_loss_routing_mismatch.1 ("ic") (by decide) (by decide)

/-- C9: every case variant of HIST/RSR other than the exact upper-case
spelling resolves to the HIST/RSR class in `get_model`, but `main`
constructs it through the generic branch (with `d_feat`, `num_layers`)
and the loops route it through the features-only call path, because
variant routing compares `args.model_name` to the exact strings. -/
theorem case_variant_generic_routing (s : String) (d n r : ℕ)
    (_hvar : strUpper s = "HIST" ∨ strUpper s = "RSR")
    (h1 : s ≠ "HIST") (h2 : s ≠ "RSR") :
    (strUpper s = "HIST" → get_model s = .ok .HIST) ∧
    (strUpper s = "RSR" → get_model s = .ok .RSR) ∧
    ctorCall s d n r = .genericCtor d n ∧
    ∀ (b : Batch) (s2c s2s : Mat),
      routeCall s b s2c s2s = .featuresOnly b.feature := by
  refine ⟨?_, ?_, ?_, ?_⟩
  · intro h; unfold get_model; rw [h]; rfl
  · intro h; unfold get_model; rw [h]; rfl
  · unfold ctorCall; rw [if_neg h1, if_neg h2]
  · intro b s2c s2s; unfold routeCall; rw [if_neg h1, if_neg h2]

/-- Witness for C9 at the concrete token `hist`. -/
theorem case_variant_generic_routing_witness :
    get_model ("hist") = .ok .HIST ∧
    ctorCall ("hist") 6 2 0 = .genericCtor 6 2 ∧
    routeCall ("hist") batch0 [] [] = .featuresOnly batch0.feature := by
  have h := case_variant_generic_routing ("hist") 6 2 0 (Or.inl (by decide))
    (by decide) (by decide)
  exact ⟨h.1 (by decide), h.2.2.1, h.2.2.2 batch0 [] []⟩

/-- C8 (amended): `test_epoch` leaves the model parameters unchanged;
the one mutation of the model object is `model.eval()`, which sets the
training flag to false. -/
theorem test_epoch_params_frame (E : Ext) (args : Args) (m : Model)
    (batches : List Batch) (s2c s2s : Mat) (rng : RNG) :
    (test_epoch E args m batches s2c s2s rng).model.params = m.params ∧
    (test_epoch E args m batches s2c s2s rng).model.training = false :=
  ⟨rfl, rfl⟩

/-- Counterexample for C8 as stated: for a model that enters in training
mode, the model after `test_epoch` differs from the model before the
call, because `model.eval()` flipped the training flag. -/
theorem test_epoch_mutates_mode_counterexample :
    (test_epoch extTriv argsTriv ⟨[], true⟩ [] [] [] ⟨0⟩).model ≠ ⟨[], true⟩ := by
  decide

/-- Every element of a 3.0-clipped gradient vector is bounded by 3. -/
theorem mem_clip_abs_le {c : ℚ} (hc : 0 ≤ c) {x : ℚ} {g : List ℚ}
    (hx : x ∈ clip_grad_value c g) : |x| ≤ c := by
  rcases List.mem_map.1 hx with ⟨v, _, rfl⟩
  rw [abs_le]
  exact ⟨le_max_left _ _, max_le (by linarith) (min_le_left _ _)⟩

/-- Every gradient vector logged by the training batch loop is the
3.0-clipped image of some raw gradient vector. -/
theorem trainLoop_gradLog_clip (E : Ext) (args : Args) (s2c s2s : Mat) :
    ∀ (bs : List Batch) (m : Model) (o : OptS) (rng : RNG) (g : List ℚ),
      g ∈ (trainLoop E args s2c s2s bs m o rng).2.2.2 →
      ∃ raw, g = clip_grad_value 3 raw := by
  intro bs
  induction bs with
  | nil => intro m o rng g hg; simp [trainLoop] at hg
  | cons b bs ih =>
    intro m o rng g hg
    rcases List.mem_cons.1 hg with h | h
    · exact ⟨_, h⟩
    · exact ih _ _ _ g h

/-- C5: in every training-loop batch step, the gradient vector handed to
the optimizer step is the clipped one, so no gradient element's absolute
value exceeds 3.0 immediately prior to the optimizer step. -/
theorem train_epoch_grads_clipped (E : Ext) (args : Args) (s2c s2s : Mat)
    (m : Model) (o : OptS) (batches : List Batch) (rng : RNG) (g : List ℚ)
    (hg : g ∈ (train_epoch E args s2c s2s m o batches rng).gradLog)
    (x : ℚ) (hx : x ∈ g) : |x| ≤ 3 := by
  obtain ⟨raw, rfl⟩ :=
    trainLoop_gradLog_clip E args s2c s2s batches _ o rng g hg
  exact mem_clip_abs_le (by norm_num) hx

/-- Witness for C5: a backward pass producing raw gradients [5, -7] is
logged as the clipped vector [3, -3], whose elements are bounded by 3. -/
theorem train_epoch_grads_clipped_witness :
    [(3 : ℚ), -3] ∈
      (train_epoch extGrad argsTriv [] [] ⟨[0], true⟩ [] [batch0] ⟨0⟩).gradLog ∧
    |(-3 : ℚ)| ≤ 3 :=
  ⟨by decide,
   train_epoch_grads_clipped extGrad argsTriv [] [] ⟨[0], true⟩ [] [batch0] ⟨0⟩
     [(3 : ℚ), -3] (by decide) (-3) (by decide)⟩

/-- In eval mode the batch loop of `test_epoch` neither consumes nor
depends on the RNG: losses and prediction rows are RNG-independent. -/
theorem testLoop_eval_rng (E : Ext) (args : Args) (lk : LossKind) (m : Model)
    (s2c s2s : Mat) (hm : m.training = false) :
    ∀ (bs : List Batch) (r1 r2 : RNG),
      (testLoop E args lk m s2c s2s bs r1).1 =
        (testLoop E args lk m s2c s2s bs r2).1 ∧
      (testLoop E args lk m s2c s2s bs r1).2.1 =
        (testLoop E args lk m s2c s2s bs r2).2.1 := by
  intro bs
  induction bs with
  | nil => intro r1 r2; exact ⟨rfl, rfl⟩
  | cons b bs ih =>
    intro r1 r2
    have h := ih r1 r2
    simp only [testLoop, forward, hm, Bool.false_eq_true, if_false]
    exact ⟨by rw [h.1], by rw [h.2]⟩

/-- C6: `test_epoch` is deterministic given frozen model weights, the
same batch sequence and the same args: its returned mean loss, scores,
precision, recall, IC, rank-IC and NDCG do not depend on any ambient
RNG state. -/
theorem test_epoch_deterministic (E : Ext) (args : Args) (m : Model)
    (batches : List Batch) (s2c s2s : Mat) (r1 r2 : RNG) :
    (test_epoch E args m batches s2c s2s r1).meanLoss =
      (test_epoch E args m batches s2c s2s r2).meanLoss ∧
    (test_epoch E args m batches s2c s2s r1).scores =
      (test_epoch E args m batches s2c s2s r2).scores ∧
    (test_epoch E args m batches s2c s2s r1).precisionK =
      (test_epoch E args m batches s2c s2s r2).precisionK ∧
    (test_epoch E args m batches s2c s2s r1).recallK =
      (test_epoch E args m batches s2c s2s r2).recallK ∧
    (test_epoch E args m batches s2c s2s r1).ic =
      (test_epoch E args m batches s2c s2s r2).ic ∧
    (test_epoch E args m batches s2c s2s r1).rank_ic =
      (test_epoch E args m batches s2c s2s r2).rank_ic ∧
    (test_epoch E args m batches s2c s2s r1).ndcg =
      (test_epoch E args m batches s2c s2s r2).ndcg := by
  have h := testLoop_eval_rng E args (testLossKind args.loss_type)
    { m with training := false } s2c s2s rfl batches r1 r2
  simp only [test_epoch]
  rw [h.1, h.2]
  exact ⟨rfl, rfl, rfl, rfl, rfl, rfl, rfl⟩

/-- C7: applying the config-file JSON pairs in order onto the parsed
namespace makes file values take precedence over command-line values,
with the last writer for a key winning. -/
theorem parse_config_last_writer {V : Type} (ns : String → Option V)
    (config : List (String × V)) (k : String) :
    parseConfigApply ns config k = (lookupLast config k).or (ns k) := by
  induction config generalizing ns with
  | nil => simp [parseConfigApply, lookupLast]
  | cons kv rest ih =>
    have hstep : parseConfigApply ns (kv :: rest) k =
        parseConfigApply (setattr ns kv.1 kv.2) rest k := rfl
    rw [hstep, ih (setattr ns kv.1 kv.2)]
    simp only [lookupLast, Option.or_assoc]
    have harg : setattr ns kv.1 kv.2 k =
        (if kv.1 = k then some kv.2 else none).or (ns k) := by
      by_cases h : k = kv.1
      · subst h; simp [setattr]
      · have h' : kv.1 ≠ k := fun hh => h hh.symm
        simp [setattr, h, h']
    rw [harg]

/-- One-step unfolding of the epoch loop. -/
theorem runLoop_succ {S : Type} (te : ℕ → S → S × Params × ℚ) (es r e : ℕ)
    (s : S) (sel : Sel) :
    runLoop te es (r + 1) e s sel =
      if scGt (te e s).2.2 sel.best_score then
        runLoop te es r (e + 1) (te e s).1 ⟨some (te e s).2.2, e, 0, (te e s).2.1⟩
      else if es ≤ sel.stop_round + 1 then
        ⟨(te e s).1, ⟨sel.best_score, sel.best_epoch, sel.stop_round + 1, sel.best_param⟩,
          e + 1, true⟩
      else
        runLoop te es r (e + 1) (te e s).1
          ⟨sel.best_score, sel.best_epoch, sel.stop_round + 1, sel.best_param⟩ := rfl

/-- If every score from epoch `e` onwards stays strictly below the held
best score, the loop increments `stop_round` every epoch and breaks in
the epoch where it reaches `early_stop`, leaving the selector's best
entries untouched. -/
theorem runLoop_noimprove_break {S : Type} (te : ℕ → S → S × Params × ℚ)
    (es : ℕ) (b : ℚ) (be : ℕ) (bp : Params) :
    ∀ (d r e sr : ℕ) (s : S),
      sr + (d + 1) = es → d + 1 ≤ r →
      (∀ e' s', e ≤ e' → (te e' s').2.2 < b) →
      (runLoop te es r e s ⟨some b, be, sr, bp⟩).earlyStopped = true ∧
      (runLoop te es r e s ⟨some b, be, sr, bp⟩).nextEpoch = e + (d + 1) ∧
      (runLoop te es r e s ⟨some b, be, sr, bp⟩).sel = ⟨some b, be, es, bp⟩ := by
  intro d
  induction d with
  | zero =>
    intro r e sr s hsr hr hlt
    obtain ⟨r', rfl⟩ : ∃ r', r = r' + 1 := ⟨r - 1, by omega⟩
    have hgt : scGt (te e s).2.2 (some b) = false := by
      simp only [scGt, decide_eq_false_iff_not]
      exact lt_asymm (hlt e s le_rfl)
    rw [runLoop_succ]
    simp only [hgt, Bool.false_eq_true, if_false]
    rw [if_pos (by omega : es ≤ sr + 1)]
    exact ⟨rfl, rfl, by rw [show sr + 1 = es by omega]⟩
  | succ d ih =>
    intro r e sr s hsr hr hlt
    obtain ⟨r', rfl⟩ : ∃ r', r = r' + 1 := ⟨r - 1, by omega⟩
    have hgt : scGt (te e s).2.2 (some b) = false := by
      simp only [scGt, decide_eq_false_iff_not]
      exact lt_asymm (hlt e s le_rfl)
    rw [runLoop_succ]
    simp only [hgt, Bool.false_eq_true, if_false]
    rw [if_neg (by omega : ¬ es ≤ sr + 1)]
    have h := ih r' (e + 1) (sr + 1) (te e s).1 (by omega) (by omega)
      (fun e' s' he => hlt e' s' (by omega))
    exact ⟨h.1, by rw [h.2.1]; omega, h.2.2⟩

/-- C1: the checkpoint selector starts from best_score = -inf,
best_epoch = 0, stop_round = 0; a strictly greater validation score
overwrites best_score/best_epoch/best_param (the post-training snapshot)
and resets stop_round, otherwise stop_round increments and the loop
stops when it reaches the patience.  For a validation-score sequence
that strictly decreases after epoch 0, the early stop fires exactly in
epoch `early_stop` (epochs 0..early_stop run, none earlier stops), with
the selector still holding epoch 0's score and parameter snapshot. -/
theorem early_stop_exact {S : Type} (te : ℕ → S → S × Params × ℚ) (f : ℕ → ℚ)
    (n es : ℕ) (s0 : S) (p0 : Params)
    (hf : ∀ e s, (te e s).2.2 = f e)
    (hdec : ∀ i, f (i + 1) < f i)
    (hes : 1 ≤ es) (hn : es < n) :
    (runLoop te es n 0 s0 (initSel p0)).earlyStopped = true ∧
    (runLoop te es n 0 s0 (initSel p0)).nextEpoch = es + 1 ∧
    (runLoop te es n 0 s0 (initSel p0)).sel =
      ⟨some (f 0), 0, es, (te 0 s0).2.1⟩ := by
  obtain ⟨n', rfl⟩ : ∃ n', n = n' + 1 := ⟨n - 1, by omega⟩
  have hanti : StrictAnti f := strictAnti_nat_of_succ_lt hdec
  have hstep : runLoop te es (n' + 1) 0 s0 (initSel p0)
      = runLoop te es n' 1 (te 0 s0).1 ⟨some (f 0), 0, 0, (te 0 s0).2.1⟩ := by
    rw [runLoop_succ]
    rw [if_pos (show scGt (te 0 s0).2.2 (initSel p0).best_score = true from rfl)]
    rw [hf 0 s0]
  have key := runLoop_noimprove_break te es (f 0) 0 (te 0 s0).2.1
    (es - 1) n' 1 0 (te 0 s0).1 (by omega) (by omega)
    (fun e' s' he => by
      rw [hf e' s']
      exact hanti (show 0 < e' by omega))
  rw [hstep]
  refine ⟨key.1, ?_, ?_⟩
  · rw [key.2.1]; omega
  · rw [key.2.2]

/-- Witness for C1: with scores 0, -1, -2, ... and patience 2, the loop
stops after epochs 0, 1, 2 and keeps epoch 0's snapshot. -/
theorem early_stop_exact_witness :
    (runLoop teDec 2 5 0 () (initSel [])).earlyStopped = true ∧
    (runLoop teDec 2 5 0 () (initSel [])).nextEpoch = 2 + 1 ∧
    (runLoop teDec 2 5 0 () (initSel [])).sel =
      ⟨some (decSeq 0), 0, 2, (teDec 0 ()).2.1⟩ :=
  early_stop_exact teDec decSeq 5 2 () [] (fun _ _ => rfl)
    (fun i => by
      simp only [decSeq]
      rw [neg_lt_neg_iff]
      exact_mod_cast Nat.lt_succ_self i)
    (by omega) (by omega)

/-- `scLE` is reflexive. -/
theorem scLE_refl (a : Option ℚ) : scLE a a = true := by
  cases a <;> simp [scLE]

/-- `scLE` is transitive. -/
theorem scLE_trans {a b c : Option ℚ} (h1 : scLE a b = true)
    (h2 : scLE b c = true) : scLE a c = true := by
  cases a <;> cases b <;> cases c <;> simp [scLE] at h1 h2 ⊢ <;> linarith

/-- A `repUpdate` step never decreases the global best score. -/
theorem repUpdate_mono (g : Option ℚ × Option Params) (bs : Option ℚ)
    (bp : Params) : scLE g.1 (repUpdate g bs bp).1 = true := by
  unfold repUpdate
  by_cases h : optGtOpt bs g.1 = true
  · rw [if_pos h]
    cases hg : g.1 <;> cases hb : bs <;>
      rw [hg, hb] at h <;> simp [optGtOpt, scLE] at h ⊢ <;> linarith
  · rw [if_neg h]
    exact scLE_refl g.1

/-- Selector invariant: starting from a selector that holds the first
maximum of the scores over the processed prefix, the loop maintains
first-seen maximality of (best_score, best_epoch) over all epochs it
ends up executing. -/
theorem runLoop_first_max {S : Type} (te : ℕ → S → S × Params × ℚ) (f : ℕ → ℚ)
    (es : ℕ) (hf : ∀ e s, (te e s).2.2 = f e) :
    ∀ (r e : ℕ) (s : S) (be sr : ℕ) (bp : Params) (out : LoopOut S),
      runLoop te es r e s ⟨some (f be), be, sr, bp⟩ = out →
      be < e →
      (∀ j, j < e → f j ≤ f be) →
      (∀ j, j < e → f j = f be → be ≤ j) →
      out.sel.best_score = some (f out.sel.best_epoch) ∧
      out.sel.best_epoch < out.nextEpoch ∧
      e ≤ out.nextEpoch ∧
      (∀ j, j < out.nextEpoch → f j ≤ f out.sel.best_epoch) ∧
      (∀ j, j < out.nextEpoch → f j = f out.sel.best_epoch →
        out.sel.best_epoch ≤ j) := by
  intro r
  induction r with
  | zero =>
    intro e s be sr bp out hout hbe hle htie
    subst hout
    exact ⟨rfl, hbe, le_rfl, hle, htie⟩
  | succ r ih =>
    intro e s be sr bp out hout hbe hle htie
    rw [runLoop_succ, hf e s] at hout
    by_cases hgt : f be < f e
    · have hsc : scGt (f e) ((Sel.mk (some (f be)) be sr bp).best_score) = true := by
        simp [scGt, hgt]
      rw [if_pos hsc] at hout
      have h := ih (e + 1) (te e s).1 e 0 (te e s).2.1 out hout (by omega) ?_ ?_
      · exact ⟨h.1, h.2.1, le_trans (Nat.le_succ e) h.2.2.1, h.2.2.2.1, h.2.2.2.2⟩
      · intro j hj
        rcases Nat.lt_succ_iff_lt_or_eq.1 hj with h | h
        · exact le_of_lt (lt_of_le_of_lt (hle j h) hgt)
        · subst h; exact le_rfl
      · intro j hj hje
        rcases Nat.lt_succ_iff_lt_or_eq.1 hj with h | h
        · exact absurd hje (by have := hle j h; exact ne_of_lt (lt_of_le_of_lt this hgt))
        · subst h; exact le_rfl
    · have hsc : scGt (f e) ((Sel.mk (some (f be)) be sr bp).best_score) = false := by
        simp only [scGt, decide_eq_false_iff_not]
        exact hgt
      rw [hsc] at hout
      simp only [Bool.false_eq_true, if_false] at hout
      have hfe : f e ≤ f be := not_lt.1 hgt
      by_cases hbr : es ≤ (Sel.mk (some (f be)) be sr bp).stop_round + 1
      · rw [if_pos hbr] at hout
        subst hout
        refine ⟨rfl, ?_, ?_, ?_, ?_⟩
        · show be < e + 1
          omega
        · show e ≤ e + 1
          omega
        · intro j hj
          have hj' : j < e + 1 := hj
          rcases Nat.lt_succ_iff_lt_or_eq.1 hj' with h | h
          · exact hle j h
          · subst h; exact hfe
        · intro j hj hje
          have hj' : j < e + 1 := hj
          rcases Nat.lt_succ_iff_lt_or_eq.1 hj' with h | h
          · exact htie j h hje
          · subst h; exact le_of_lt hbe
      · rw [if_neg hbr] at hout
        have h := ih (e + 1) (te e s).1 be (sr + 1) bp out hout (by omega) ?_ ?_
        · exact ⟨h.1, h.2.1, le_trans (by omega) h.2.2.1, h.2.2.2.1, h.2.2.2.2⟩
        · intro j hj
          rcases Nat.lt_succ_iff_lt_or_eq.1 hj with h | h
          · exact hle j h
          · subst h; exact hfe
        · intro j hj hje
          rcases Nat.lt_succ_iff_lt_or_eq.1 hj with h | h
          · exact htie j h hje
          · subst h; omega

/-- C2: per repetition the selector retains the first-seen maximum of
the validation scores (strict comparison breaks ties toward the earliest
epoch), and across repetitions the global best score is monotonically
non-decreasing, with the persisted `model_best.bin` replaced only on a
strictly greater repetition best. -/
theorem best_checkpoint_first_seen_global_monotone {S : Type}
    (te : ℕ → S → S × Params × ℚ) (f : ℕ → ℚ) (n es : ℕ) (s0 : S) (p0 : Params)
    (hf : ∀ e s, (te e s).2.2 = f e) (hn : 0 < n) :
    ((runLoop te es n 0 s0 (initSel p0)).sel.best_score =
        some (f (runLoop te es n 0 s0 (initSel p0)).sel.best_epoch) ∧
      (runLoop te es n 0 s0 (initSel p0)).sel.best_epoch <
        (runLoop te es n 0 s0 (initSel p0)).nextEpoch ∧
      (∀ j, j < (runLoop te es n 0 s0 (initSel p0)).nextEpoch →
        f j ≤ f ((runLoop te es n 0 s0 (initSel p0)).sel.best_epoch)) ∧
      (∀ j, j < (runLoop te es n 0 s0 (initSel p0)).nextEpoch →
        f j = f ((runLoop te es n 0 s0 (initSel p0)).sel.best_epoch) →
        (runLoop te es n 0 s0 (initSel p0)).sel.best_epoch ≤ j)) ∧
    (∀ (g : Option ℚ × Option Params) (bs : Option ℚ) (bp : Params),
      scLE g.1 (repUpdate g bs bp).1 = true ∧
      ((repUpdate g bs bp).2 ≠ g.2 → optGtOpt bs g.1 = true)) ∧
    (∀ (l : List (Option ℚ × Params)) (g : Option ℚ × Option Params),
      scLE g.1 (repFold l g).1 = true) := by
  refine ⟨?_, ?_, ?_⟩
  · obtain ⟨n', rfl⟩ : ∃ n', n = n' + 1 := ⟨n - 1, by omega⟩
    have hstep : runLoop te es (n' + 1) 0 s0 (initSel p0)
        = runLoop te es n' 1 (te 0 s0).1 ⟨some (f 0), 0, 0, (te 0 s0).2.1⟩ := by
      rw [runLoop_succ]
      rw [if_pos (show scGt (te 0 s0).2.2 (initSel p0).best_score = true from rfl)]
      rw [hf 0 s0]
    have h := runLoop_first_max te f es hf n' 1 (te 0 s0).1 0 0 (te 0 s0).2.1
      (runLoop te es n' 1 (te 0 s0).1 ⟨some (f 0), 0, 0, (te 0 s0).2.1⟩) rfl
      (by omega)
      (fun j hj => by
        have : j = 0 := by omega
        subst this; exact le_rfl)
      (fun j hj hje => Nat.zero_le j)
    rw [hstep]
    exact ⟨h.1, h.2.1, h.2.2.2.1, h.2.2.2.2⟩
  · intro g bs bp
    refine ⟨repUpdate_mono g bs bp, ?_⟩
    intro hne
    by_contra hno
    apply hne
    unfold repUpdate
    rw [if_neg hno]
  · intro l
    induction l with
    | nil => intro g; exact scLE_refl g.1
    | cons x xs ih =>
      intro g
      exact scLE_trans (repUpdate_mono g x.1 x.2) (ih (repUpdate g x.1 x.2))

/-- Witness for C2: a concrete run plus a concrete global-best update. -/
theorem best_checkpoint_first_seen_global_monotone_witness :
    (runLoop teDec 2 3 0 () (initSel [])).sel.best_epoch <
      (runLoop teDec 2 3 0 () (initSel [])).nextEpoch ∧
    scLE (some 1, (none : Option Params)).1
      (repUpdate (some 1, none) (some 2) []).1 = true := by
  have h := best_checkpoint_first_seen_global_monotone teDec decSeq 3 2 () []
    (fun _ _ => rfl) (by omega)
  exact ⟨h.1.2.1, (h.2.1 (some 1, none) (some 2) []).1⟩

/-- Each repetition ends by writing `info.json`. -/
theorem repetition_writes_info (E : Ext) (args : Args) (tb vb teb : List Batch)
    (s2c s2s : Mat) (rng : RNG) (gb : Option ℚ) (w : World) :
    (repetition E args tb vb teb s2c s2s rng gb w).2.2.1.info_json.isSome = true :=
  rfl

/-- After at least one repetition, `info.json` exists. -/
theorem repsLoop_writes_info (E : Ext) (args : Args) (tb vb teb : List Batch)
    (s2c s2s : Mat) :
    ∀ (k : ℕ) (rng : RNG) (gb : Option ℚ) (w : World) (acc : ℕ), 0 < k →
      (repsLoop E args tb vb teb s2c s2s k rng gb w acc).2.2.1.info_json.isSome
        = true := by
  intro k
  induction k with
  | zero => intro _ _ _ _ h; omega
  | succ k ih =>
    intro rng gb w acc _
    by_cases hk : 0 < k
    · exact ih _ _ _ _ hk
    · have hk0 : k = 0 := by omega
      subst hk0
      exact repetition_writes_info E args tb vb teb s2c s2s rng gb w

/-- C3: with overwrite not requested, a `main` invocation on an outdir
that already contains `info.json` returns before any training work
(no loaders, zero trained epochs, world unchanged); consequently a
second invocation with the same arguments performs no training and
leaves `info.json` exactly as the first invocation left it. -/
theorem main_skip_idempotent (E : Ext) (args : Args) (tb vb teb : List Batch)
    (s2c s2s : Mat) (rng0 : RNG) (w : World) (hov : args.overwrite = false) :
    (w.info_json.isSome = true →
      mainRun E args tb vb teb s2c s2s rng0 w = (w, ⟨false, 0⟩)) ∧
    ((mainRun E args tb vb teb s2c s2s rng0
        (mainRun E args tb vb teb s2c s2s rng0 w).1).2.train_epochs_run = 0 ∧
      (mainRun E args tb vb teb s2c s2s rng0
        (mainRun E args tb vb teb s2c s2s rng0 w).1).1.info_json =
        (mainRun E args tb vb teb s2c s2s rng0 w).1.info_json) := by
  have hskip : ∀ w' : World, w'.info_json.isSome = true →
      mainRun E args tb vb teb s2c s2s rng0 w' = (w', ⟨false, 0⟩) := by
    intro w' h
    unfold mainRun
    simp [hov, h]
  refine ⟨hskip w, ?_⟩
  by_cases hw : w.info_json.isSome = true
  · rw [hskip w hw, hskip w hw]
    exact ⟨rfl, rfl⟩
  · have hw' : w.info_json.isSome = false := by
      revert hw; cases w.info_json.isSome <;> simp
    have hmain1 : mainRun E args tb vb teb s2c s2s rng0 w =
        ((repsLoop E args tb vb teb s2c s2s args.repeatN rng0 none w 0).2.2.1,
         ⟨true, (repsLoop E args tb vb teb s2c s2s args.repeatN rng0 none w 0).2.2.2⟩) := by
      unfold mainRun
      simp [hov, hw']
    by_cases hrep : 0 < args.repeatN
    · rw [hmain1]
      have hsome := repsLoop_writes_info E args tb vb teb s2c s2s
        args.repeatN rng0 none w 0 hrep
      rw [hskip _ hsome]
      exact ⟨rfl, rfl⟩
    · have hrep0 : args.repeatN = 0 := by omega
      have hw1 : (mainRun E args tb vb teb s2c s2s rng0 w).1 = w := by
        rw [hmain1, hrep0]
        rfl
      rw [hw1, hmain1, hrep0]
      exact ⟨rfl, rfl⟩

/-- Witness for C3: a skip on a world that already holds `info.json`. -/
theorem main_skip_idempotent_witness :
    mainRun extTriv argsTriv [] [] [] [] [] ⟨0⟩ worldInfo =
      (worldInfo, ⟨false, 0⟩) :=
  (main_skip_idempotent extTriv argsTriv [] [] [] [] [] ⟨0⟩ worldInfo rfl).1 rfl

end StocR
